import Mathlib

/-
Verification of the dispatch/subscription engine of the taomu-store
library (src/lib/taomu-store.tsx).

The TypeScript `Store` class is shallowly embedded: the live state is an
association list of own keys in insertion order (a JavaScript object),
per-field transforms (`actions`), the pre/post dispatch hooks, the
per-field listener registry and the pending-options map are explicit
fields of a `Store` structure, and the observable side effects of a
dispatch (transform invocations, listener invocations, the `onChanged`
and `afterDispatch` callbacks, and the warning diagnostic) are returned
as an explicit event list.
-/

set_option autoImplicit false

namespace TaomuStore

/-- Primitive JavaScript values, enough for the dispatched field values.
Strict equality `===` on these primitives is value equality, which is
modelled by decidable equality. -/
inductive JsVal where
  | num (n : Int)
  | str (s : String)
  | bool (b : Bool)
  | undef
  deriving DecidableEq, Repr

/-- A JavaScript object: its own enumerable properties as an association
list of key and value, in insertion order. -/
abbrev JsObj := List (String × JsVal)

/-- Property read `o[k]`: the first entry with the key, `undefined` when
the key is absent. -/
def lookupJs (o : JsObj) (k : String) : JsVal :=
  match o with
  | [] => .undef
  | p :: ps => if p.1 = k then p.2 else lookupJs ps k

/-- Whether `k` is an own key of the object. -/
def hasKey (o : JsObj) (k : String) : Bool :=
  match o with
  | [] => false
  | p :: ps => p.1 == k || hasKey ps k

/-- Property write `o[k] = v`: an existing key keeps its position and
gets the new value, a new key is appended. -/
def setKey (o : JsObj) (k : String) (v : JsVal) : JsObj :=
  match o with
  | [] => [(k, v)]
  | p :: ps => if p.1 = k then (k, v) :: ps else p :: setKey ps k v

/-- `Object.assign(target, source)` (and the object-spread merge): the
source keys are written into the target from left to right. -/
def assignObj (target source : JsObj) : JsObj :=
  source.foldl (fun acc p => setKey acc p.1 p.2) target

/-- The key list a `for..in` loop or `Object.keys` enumerates: each own
key once, in insertion order (first occurrence wins). -/
def dedupKeys (l : List String) : List String :=
  l.foldl (fun acc k => if acc.contains k then acc else acc ++ [k]) []

theorem lookupJs_setKey (o : JsObj) (k : String) (v : JsVal) (x : String) :
    lookupJs (setKey o k v) x = if k = x then v else lookupJs o x := by
  induction o with
  | nil => simp [setKey, lookupJs]
  | cons p ps ih =>
      by_cases hpk : p.1 = k
      · subst hpk
        by_cases hx : p.1 = x <;> simp [setKey, lookupJs, hx]
      · by_cases hx : p.1 = x
        · subst hx
          have hkx : ¬ k = p.1 := fun h => hpk h.symm
          simp [setKey, lookupJs, hpk, hkx]
        · simp [setKey, lookupJs, hpk, hx, ih]

theorem hasKey_setKey (o : JsObj) (k : String) (v : JsVal) (x : String) :
    hasKey (setKey o k v) x = (k == x || hasKey o x) := by
  induction o with
  | nil => simp [setKey, hasKey]
  | cons p ps ih =>
      by_cases hpk : p.1 = k
      · subst hpk
        simp [setKey, hasKey]
      · simp only [setKey, hasKey, if_neg hpk, ih]
        cases hpx : (p.1 == x) <;> cases hkx : (k == x) <;> simp_all

theorem hasKey_assignObj (o m : JsObj) (x : String) :
    hasKey (assignObj o m) x = (hasKey o x || hasKey m x) := by
  induction m generalizing o with
  | nil => simp [assignObj, hasKey]
  | cons p ps ih =>
      simp only [assignObj, List.foldl_cons] at *
      rw [ih, hasKey_setKey]
      simp only [hasKey]
      cases (p.1 == x) <;> cases hasKey o x <;> simp

theorem lookupJs_assignObj_of_not_has (o m : JsObj) (x : String)
    (h : hasKey m x = false) :
    lookupJs (assignObj o m) x = lookupJs o x := by
  induction m generalizing o with
  | nil => simp [assignObj]
  | cons p ps ih =>
      simp only [hasKey, Bool.or_eq_false_iff] at h
      simp only [assignObj, List.foldl_cons] at *
      rw [ih _ h.2, lookupJs_setKey]
      have : ¬ p.1 = x := by
        intro hpx
        simp [hpx] at h
      simp [this]

theorem hasKey_iff_mem (o : JsObj) (x : String) :
    hasKey o x = true ↔ x ∈ o.map Prod.fst := by
  induction o with
  | nil => simp [hasKey]
  | cons p ps ih =>
      simp only [hasKey, List.map_cons, List.mem_cons, Bool.or_eq_true, beq_iff_eq, ih]
      constructor
      · rintro (h | h)
        · exact Or.inl h.symm
        · exact Or.inr h
      · rintro (h | h)
        · exact Or.inl h.symm
        · exact Or.inr h

theorem mem_dedupKeys_aux (l acc : List String) (x : String) :
    x ∈ l.foldl (fun acc k => if acc.contains k then acc else acc ++ [k]) acc ↔
      x ∈ acc ∨ x ∈ l := by
  induction l generalizing acc with
  | nil => simp
  | cons k ks ih =>
      simp only [List.foldl_cons, List.mem_cons]
      by_cases hc : acc.contains k
      · rw [if_pos hc, ih]
        have hk : k ∈ acc := by
          simpa [List.contains_iff_exists_mem_beq, beq_iff_eq] using hc
        constructor
        · rintro (h | h)
          · exact Or.inl h
          · exact Or.inr (Or.inr h)
        · rintro (h | h | h)
          · exact Or.inl h
          · exact Or.inl (h ▸ hk)
          · exact Or.inr h
      · rw [if_neg hc, ih]
        simp only [List.mem_append, List.mem_singleton]
        tauto

theorem mem_dedupKeys (l : List String) (x : String) :
    x ∈ dedupKeys l ↔ x ∈ l := by
  rw [dedupKeys, mem_dedupKeys_aux]
  simp

/-- The `DispatchOptions` record after normalisation: `check` with its
value, and whether an `onChanged` callback is present. -/
structure DispatchOptions where
  check : Bool
  onChanged : Bool
  deriving DecidableEq, Repr

/-- The value of the readonly field `defaultDispatchOptions`:
`\x7b check: false \x7d`, no `onChanged` callback. -/
def defaultDispatchOptions : DispatchOptions :=
  { check := false, onChanged := false }

/-- The second argument of `dispatch`: omitted, a bare callback used as
`onChanged`, or a configuration object whose `check` key may be absent
and whose `onChanged` key may be present. -/
inductive OptionsArg where
  | none
  | cb
  | opts (check : Option Bool) (onChanged : Bool)
  deriving DecidableEq, Repr

/-- The effective options `optionsH`: a copy of the defaults, then
either `optionsH.onChanged = options` for a function argument, or
`Object.assign(optionsH, options)` for an object argument. -/
def effectiveOptions (d : DispatchOptions) (a : OptionsArg) : DispatchOptions :=
  match a with
  | .none => d
  | .cb => { d with onChanged := true }
  | .opts c oc => { check := c.getD d.check, onChanged := oc || d.onChanged }

/-- The possible results of the `beforeDispatch` hook:
`boolean | Partial<StateT>`. -/
inductive BeforeRes where
  | bool (b : Bool)
  | obj (m : JsObj)

/-- Observable side effects of a dispatch or of a notification pass. -/
inductive Event where
  | transformCalled (key : String) (value : JsVal) (statesArg : JsObj)
  | listenerCalled (key : String) (l : Nat)
  | warnNoOptions (dispatchBatch : Nat)
  | onChangedCalled (state : JsObj)
  | afterDispatchCalled (changed : JsObj)
  deriving DecidableEq, Repr

/-- The subscriber registry: `Map<keyof StateT, Set<Listener>>`, with
listeners named by numbers and each set kept in insertion order. -/
abbrev ListenerMap := List (String × List Nat)

/-- `this.listeners.get(key)` followed by the `|| new Set()` default. -/
def listenersOf (m : ListenerMap) (k : String) : List Nat :=
  match m with
  | [] => []
  | p :: ps => if p.1 = k then p.2 else listenersOf ps k

/-- `this.listeners.set(key, listeners)`. -/
def setListenerEntry (m : ListenerMap) (k : String) (v : List Nat) : ListenerMap :=
  match m with
  | [] => [(k, v)]
  | p :: ps => if p.1 = k then (k, v) :: ps else p :: setListenerEntry ps k v

/-- The pending-options map `dispatchBatchOptionsMap`. -/
abbrev OptMap := List (Nat × DispatchOptions)

/-- `Map.get`: the entry for the key, since a `Map` holds at most one. -/
def mapGet (m : OptMap) (b : Nat) : Option DispatchOptions :=
  match m with
  | [] => Option.none
  | p :: ps => if p.1 = b then some p.2 else mapGet ps b

/-- `Map.set`. -/
def mapSet (m : OptMap) (b : Nat) (o : DispatchOptions) : OptMap :=
  match m with
  | [] => [(b, o)]
  | p :: ps => if p.1 = b then (b, o) :: ps else p :: mapSet ps b o

/-- `Map.delete`. -/
def mapDelete (m : OptMap) (b : Nat) : OptMap :=
  match m with
  | [] => []
  | p :: ps => if p.1 = b then mapDelete ps b else p :: mapDelete ps b

/-- The `Store` instance: its private fields, the two hook slots (the
hooks are modelled as pure functions, the post-dispatch hook only by
whether it is registered since it returns nothing), and an allocation
counter that names the next fresh object so that object reference
identity of the live state is observable. -/
structure Store where
  stateId : Nat
  state : JsObj
  actions : String → Option (JsVal → JsObj → JsObj)
  listeners : ListenerMap
  dispatchBatch : Nat
  dispatchBatchOptionsMap : OptMap
  takeOverDispatch : Bool
  beforeDispatch : Option (Nat → JsObj → DispatchOptions → BeforeRes)
  afterDispatchOn : Bool
  allocCounter : Nat

/-- The constructor: initial state and the optional actions record; all
registries empty, batch counter zero. -/
def mkStore (init : JsObj) (A : String → Option (JsVal → JsObj → JsObj)) : Store :=
  { stateId := 0, state := init, actions := A, listeners := [],
    dispatchBatch := 0, dispatchBatchOptionsMap := [],
    takeOverDispatch := false, beforeDispatch := Option.none,
    afterDispatchOn := false, allocCounter := 1 }

/-- `subscribe(listener, key)`: fetch or create the set for the key,
add the listener, store the set back. -/
def subscribe (s : Store) (listener : Nat) (key : String) : Store :=
  let cur := listenersOf s.listeners key
  let cur2 := if cur.contains listener then cur else cur ++ [listener]
  { s with listeners := setListenerEntry s.listeners key cur2 }

/-- `getState(key)`: `if (key)` is JavaScript truthiness on the key, so
the one falsy string key, the empty string, selects the whole-state
branch of the overload. -/
def getState (s : Store) (key : String) : JsVal ⊕ JsObj :=
  if key ≠ "" then Sum.inl (lookupJs s.state key) else Sum.inr s.state

/-- `staticUpdateState(nextState)`: `Object.assign(this.state, nextState)`
mutates the live object in place, so its identity is kept. -/
def staticUpdateState (s : Store) (nextState : JsObj) : Store :=
  { s with state := assignObj s.state nextState }

/-- The listener invocation events of the `for..in` loop of
`executeListeners`: for each own key of `changedState`, every listener
of that key, in registration order. -/
def listenerEventsFor (L : ListenerMap) (changedState : JsObj) : List Event :=
  (dedupKeys (changedState.map Prod.fst)).flatMap
    (fun k => (listenersOf L k).map (fun l => Event.listenerCalled k l))

/-- `executeListeners(dispatchBatch, changedState, options?)`: when the
options are omitted they are looked up in the pending-options map and
the entry is deleted; the listeners of every own key of `changedState`
are invoked; with resolved options the `onChanged` callback receives
the current state, without them a warning is printed; finally the
`afterDispatch` hook receives `changedState`. -/
def executeListeners (s : Store) (dispatchBatch : Nat) (changedState : JsObj)
    (options : Option DispatchOptions) : Store × List Event :=
  let r : Option DispatchOptions × Store :=
    match options with
    | some o => (some o, s)
    | Option.none =>
        (mapGet s.dispatchBatchOptionsMap dispatchBatch,
         { s with dispatchBatchOptionsMap :=
             mapDelete s.dispatchBatchOptionsMap dispatchBatch })
  let optionsH := r.1
  let s1 := r.2
  let evs := listenerEventsFor s1.listeners changedState
  let evs2 : List Event :=
    match optionsH with
    | some o => if o.onChanged then [Event.onChangedCalled s1.state] else []
    | Option.none => [Event.warnNoOptions dispatchBatch]
  let evs3 : List Event :=
    if s1.afterDispatchOn then [Event.afterDispatchCalled changedState] else []
  (s1, evs ++ evs2 ++ evs3)

/-- The `beforeDispatch` handling of `dispatch`: `false` aborts, an
object result is merged into `nextState` in place, any other result
leaves it alone. Returns the partial state the key loop reads, or
`none` when the dispatch is vetoed. -/
def preprocessNext (s : Store) (nextState : JsObj) (optionsH : DispatchOptions)
    (batch : Nat) : Option JsObj :=
  match s.beforeDispatch with
  | Option.none => some nextState
  | some f =>
      match f batch nextState optionsH with
      | .bool false => Option.none
      | .bool true => some nextState
      | .obj m => some (assignObj nextState m)

/-- One iteration of the `changeKeys.forEach` loop of `dispatch`: a
registered action is called with the incoming value and the current
state and its whole return record is assigned into `changedState`;
otherwise with `check` on, the field enters `changedState` only when
the incoming value differs from the current one; otherwise the field
enters unconditionally. -/
def changedStep (A : String → Option (JsVal → JsObj → JsObj)) (st : JsObj)
    (check : Bool) (nextState1 : JsObj) (acc : JsObj × List Event)
    (key : String) : JsObj × List Event :=
  let nextValue := lookupJs nextState1 key
  match A key with
  | some f =>
      (assignObj acc.1 (f nextValue st),
       acc.2 ++ [Event.transformCalled key nextValue st])
  | Option.none =>
      if check then
        if nextValue ≠ lookupJs st key then (setKey acc.1 key nextValue, acc.2)
        else acc
      else (setKey acc.1 key nextValue, acc.2)

/-- The whole `changeKeys.forEach` loop: the changed-set and the
transform invocation events. -/
def computeChanged (A : String → Option (JsVal → JsObj → JsObj)) (st : JsObj)
    (check : Bool) (nextState1 : JsObj) (changeKeys : List String) :
    JsObj × List Event :=
  changeKeys.foldl (changedStep A st check nextState1) ([], [])

/-- `dispatch(nextState, options)`. Note that `changeKeys` is computed
from `nextState` before the `beforeDispatch` hook runs, while the
values read in the key loop come from the possibly hook-merged partial
state. The new state object is freshly allocated by the spread merge;
in hand-off mode the effective options are stored under the batch
number, otherwise `executeListeners` runs inline. -/
def dispatch (s : Store) (nextState : JsObj) (options : OptionsArg) :
    Store × List Event :=
  let optionsH := effectiveOptions defaultDispatchOptions options
  let changeKeys := dedupKeys (nextState.map Prod.fst)
  let batch := s.dispatchBatch + 1
  let s1 : Store := { s with dispatchBatch := batch }
  match preprocessNext s nextState optionsH batch with
  | Option.none => (s1, [])
  | some nextState1 =>
      let cc := computeChanged s.actions s.state optionsH.check nextState1 changeKeys
      let s2 : Store := { s1 with
        stateId := s1.allocCounter,
        state := assignObj s1.state cc.1,
        allocCounter := s1.allocCounter + 1 }
      if s2.takeOverDispatch then
        ({ s2 with dispatchBatchOptionsMap :=
             mapSet s2.dispatchBatchOptionsMap batch optionsH }, cc.2)
      else
        let r := executeListeners s2 batch cc.1 (some optionsH)
        (r.1, cc.2 ++ r.2)

/-- The changed-set a dispatch computes, `none` when it is vetoed. -/
def dispatchChangedSet (s : Store) (nextState : JsObj) (options : OptionsArg) :
    Option JsObj :=
  let optionsH := effectiveOptions defaultDispatchOptions options
  (preprocessNext s nextState optionsH (s.dispatchBatch + 1)).map
    (fun nextState1 =>
      (computeChanged s.actions s.state optionsH.check nextState1
        (dedupKeys (nextState.map Prod.fst))).1)

theorem mapGet_mapSet (m : OptMap) (b : Nat) (o : DispatchOptions) (k : Nat) :
    mapGet (mapSet m b o) k = if b = k then some o else mapGet m k := by
  induction m with
  | nil => by_cases h : b = k <;> simp [mapSet, mapGet, h]
  | cons p ps ih =>
      by_cases hpb : p.1 = b
      · subst hpb
        by_cases h : p.1 = k <;> simp [mapSet, mapGet, h]
      · by_cases h : p.1 = k
        · subst h
          have hbk : ¬ b = p.1 := fun hh => hpb hh.symm
          simp [mapSet, mapGet, hpb, hbk]
        · simp [mapSet, mapGet, hpb, h, ih]

theorem mapGet_mapDelete (m : OptMap) (b : Nat) (k : Nat) :
    mapGet (mapDelete m b) k = if b = k then Option.none else mapGet m k := by
  induction m with
  | nil => by_cases h : b = k <;> simp [mapDelete, mapGet, h]
  | cons p ps ih =>
      by_cases hpb : p.1 = b
      · subst hpb
        by_cases h : p.1 = k
        · subst h
          simp [mapDelete, mapGet, ih]
        · simp [mapDelete, mapGet, h, ih]
      · by_cases h : p.1 = k
        · subst h
          have hbk : ¬ b = p.1 := fun hh => hpb hh.symm
          simp [mapDelete, mapGet, hpb, hbk]
        · simp [mapDelete, mapGet, hpb, h, ih]

/-- Every event the listener loop produces is a listener invocation. -/
theorem listenerEventsFor_shape (L : ListenerMap) (c : JsObj) (e : Event)
    (h : e ∈ listenerEventsFor L c) : ∃ K l, e = Event.listenerCalled K l := by
  simp only [listenerEventsFor, List.mem_flatMap, List.mem_map] at h
  obtain ⟨k, -, l, -, rfl⟩ := h
  exact ⟨k, l, rfl⟩

theorem mem_listenerEventsFor (L : ListenerMap) (c : JsObj) (K : String) (l : Nat) :
    Event.listenerCalled K l ∈ listenerEventsFor L c ↔
      hasKey c K = true ∧ l ∈ listenersOf L K := by
  simp only [listenerEventsFor, List.mem_flatMap, List.mem_map,
    Event.listenerCalled.injEq]
  constructor
  · rintro ⟨k, hk, l2, hl2, rfl, rfl⟩
    rw [mem_dedupKeys] at hk
    exact ⟨(hasKey_iff_mem _ _).2 hk, hl2⟩
  · rintro ⟨hK, hl⟩
    refine ⟨K, ?_, l, hl, rfl, rfl⟩
    rw [mem_dedupKeys]
    exact (hasKey_iff_mem c K).1 hK

theorem executeListeners_fst_some (s : Store) (b : Nat) (c : JsObj)
    (o : DispatchOptions) : (executeListeners s b c (some o)).1 = s := rfl

theorem executeListeners_fst_none (s : Store) (b : Nat) (c : JsObj) :
    (executeListeners s b c Option.none).1 =
      { s with dispatchBatchOptionsMap := mapDelete s.dispatchBatchOptionsMap b } := rfl

theorem executeListeners_some_snd (s : Store) (b : Nat) (c : JsObj)
    (o : DispatchOptions) :
    (executeListeners s b c (some o)).2 =
      listenerEventsFor s.listeners c
        ++ (if o.onChanged then [Event.onChangedCalled s.state] else [])
        ++ (if s.afterDispatchOn then [Event.afterDispatchCalled c] else []) := rfl

theorem executeListeners_none_found (s : Store) (b : Nat) (c : JsObj)
    (o : DispatchOptions) (h : mapGet s.dispatchBatchOptionsMap b = some o) :
    (executeListeners s b c Option.none).2 =
      listenerEventsFor s.listeners c
        ++ (if o.onChanged then [Event.onChangedCalled s.state] else [])
        ++ (if s.afterDispatchOn then [Event.afterDispatchCalled c] else []) := by
  simp [executeListeners, h]

theorem executeListeners_none_missing (s : Store) (b : Nat) (c : JsObj)
    (h : mapGet s.dispatchBatchOptionsMap b = Option.none) :
    (executeListeners s b c Option.none).2 =
      listenerEventsFor s.listeners c
        ++ [Event.warnNoOptions b]
        ++ (if s.afterDispatchOn then [Event.afterDispatchCalled c] else []) := by
  simp [executeListeners, h]

/-- A listener invocation appears in a notification pass exactly when
its key is an own key of the changed record and the listener is
registered under that key. -/
theorem mem_listenerCalled_executeListeners (s : Store) (b : Nat) (c : JsObj)
    (o : Option DispatchOptions) (K : String) (l : Nat) :
    Event.listenerCalled K l ∈ (executeListeners s b c o).2 ↔
      hasKey c K = true ∧ l ∈ listenersOf s.listeners K := by
  rw [← mem_listenerEventsFor s.listeners c K l]
  cases o with
  | some o =>
      rw [executeListeners_some_snd]
      simp only [List.mem_append]
      constructor
      · rintro ((h | h) | h)
        · exact h
        · by_cases hoc : o.onChanged <;> simp [hoc] at h
        · by_cases haf : s.afterDispatchOn <;> simp [haf] at h
      · exact fun h => Or.inl (Or.inl h)
  | none =>
      cases hm : mapGet s.dispatchBatchOptionsMap b with
      | some o2 =>
          rw [executeListeners_none_found s b c o2 hm]
          simp only [List.mem_append]
          constructor
          · rintro ((h | h) | h)
            · exact h
            · by_cases hoc : o2.onChanged <;> simp [hoc] at h
            · by_cases haf : s.afterDispatchOn <;> simp [haf] at h
          · exact fun h => Or.inl (Or.inl h)
      | none =>
          rw [executeListeners_none_missing s b c hm]
          simp only [List.mem_append, List.mem_singleton]
          constructor
          · rintro ((h | h) | h)
            · exact h
            · simp at h
            · by_cases haf : s.afterDispatchOn <;> simp [haf] at h
          · exact fun h => Or.inl (Or.inl h)

/-- A notification pass never records a transform invocation. -/
theorem transformCalled_not_mem_executeListeners (s : Store) (b : Nat)
    (c : JsObj) (o : Option DispatchOptions) (k : String) (v : JsVal)
    (st : JsObj) :
    Event.transformCalled k v st ∉ (executeListeners s b c o).2 := by
  have hlis : Event.transformCalled k v st ∉ listenerEventsFor s.listeners c := by
    intro h
    rcases listenerEventsFor_shape _ _ _ h with ⟨K, l, he⟩
    cases he
  cases o with
  | some o2 =>
      rw [executeListeners_some_snd]
      intro h
      rcases List.mem_append.1 h with h2 | h2
      · rcases List.mem_append.1 h2 with h3 | h3
        · exact hlis h3
        · by_cases hoc : o2.onChanged
          · simp [hoc] at h3
          · simp [hoc] at h3
      · by_cases haf : s.afterDispatchOn
        · simp [haf] at h2
        · simp [haf] at h2
  | none =>
      cases hm : mapGet s.dispatchBatchOptionsMap b with
      | some o2 =>
          rw [executeListeners_none_found s b c o2 hm]
          intro h
          rcases List.mem_append.1 h with h2 | h2
          · rcases List.mem_append.1 h2 with h3 | h3
            · exact hlis h3
            · by_cases hoc : o2.onChanged
              · simp [hoc] at h3
              · simp [hoc] at h3
          · by_cases haf : s.afterDispatchOn
            · simp [haf] at h2
            · simp [haf] at h2
      | none =>
          rw [executeListeners_none_missing s b c hm]
          intro h
          rcases List.mem_append.1 h with h2 | h2
          · rcases List.mem_append.1 h2 with h3 | h3
            · exact hlis h3
            · simp at h3
          · by_cases haf : s.afterDispatchOn
            · simp [haf] at h2
            · simp [haf] at h2

/-- Unfolding of a vetoed dispatch: only the batch counter moves. -/
theorem dispatch_vetoed (s : Store) (ns : JsObj) (o : OptionsArg)
    (h : preprocessNext s ns (effectiveOptions defaultDispatchOptions o)
          (s.dispatchBatch + 1) = Option.none) :
    dispatch s ns o = ({ s with dispatchBatch := s.dispatchBatch + 1 }, []) := by
  simp only [dispatch, h]

/-- Unfolding of a non-vetoed dispatch in terms of the changed-set
computation and the two notification routes. -/
theorem dispatch_not_vetoed (s : Store) (ns : JsObj) (o : OptionsArg) (ns1 : JsObj)
    (h : preprocessNext s ns (effectiveOptions defaultDispatchOptions o)
          (s.dispatchBatch + 1) = some ns1) :
    dispatch s ns o =
      (let optionsH := effectiveOptions defaultDispatchOptions o
       let cc := computeChanged s.actions s.state optionsH.check ns1
         (dedupKeys (ns.map Prod.fst))
       let s2 : Store := { s with
         dispatchBatch := s.dispatchBatch + 1
         stateId := s.allocCounter
         state := assignObj s.state cc.1
         allocCounter := s.allocCounter + 1 }
       if s.takeOverDispatch then
         ({ s2 with dispatchBatchOptionsMap :=
              mapSet s.dispatchBatchOptionsMap (s.dispatchBatch + 1) optionsH },
          cc.2)
       else
         (s2, cc.2 ++ (executeListeners s2 (s.dispatchBatch + 1) cc.1
           (some optionsH)).2)) := by
  simp only [dispatch, h]
  rfl

/-- The changed-set of a non-vetoed dispatch. -/
theorem dispatchChangedSet_not_vetoed (s : Store) (ns : JsObj) (o : OptionsArg)
    (ns1 : JsObj)
    (h : preprocessNext s ns (effectiveOptions defaultDispatchOptions o)
          (s.dispatchBatch + 1) = some ns1) :
    dispatchChangedSet s ns o =
      some (computeChanged s.actions s.state
        (effectiveOptions defaultDispatchOptions o).check ns1
        (dedupKeys (ns.map Prod.fst))).1 := by
  simp [dispatchChangedSet, h]

/-- Every event the key loop produces is a transform invocation whose
value argument is the pending value of its key and whose state argument
is the state the loop was started with. -/
theorem foldl_changed_events (A : String → Option (JsVal → JsObj → JsObj))
    (st : JsObj) (ch : Bool) (ns1 : JsObj) (keys : List String)
    (acc : JsObj × List Event) (e : Event)
    (h : e ∈ (List.foldl (changedStep A st ch ns1) acc keys).2) :
    e ∈ acc.2 ∨ ∃ k, e = Event.transformCalled k (lookupJs ns1 k) st := by
  induction keys generalizing acc with
  | nil => exact Or.inl h
  | cons k ks ih =>
      rw [List.foldl_cons] at h
      rcases ih _ h with h2 | h2
      · cases hAk : A k with
        | some f =>
            simp only [changedStep, hAk, List.mem_append, List.mem_singleton] at h2
            rcases h2 with h3 | h3
            · exact Or.inl h3
            · exact Or.inr ⟨k, h3⟩
        | none =>
            by_cases hc : ch
            · by_cases hv : lookupJs ns1 k ≠ lookupJs st k
              · simpa [changedStep, hAk, hc, hv] using Or.inl h2
              · simpa [changedStep, hAk, hc, hv] using Or.inl h2
            · simpa [changedStep, hAk, hc] using Or.inl h2
      · exact Or.inr h2

theorem computeChanged_events (A : String → Option (JsVal → JsObj → JsObj))
    (st : JsObj) (ch : Bool) (ns1 : JsObj) (keys : List String) (e : Event)
    (h : e ∈ (computeChanged A st ch ns1 keys).2) :
    ∃ k, e = Event.transformCalled k (lookupJs ns1 k) st := by
  rcases foldl_changed_events A st ch ns1 keys ([], []) e h with h2 | h2
  · cases h2
  · exact h2

/-- The processing of key `k` leaves field `X` of the changed-set alone:
either an action is registered for `k` and its return record has no key
`X`, or no action is registered and `k` is a different key. -/
def untouchedKey (A : String → Option (JsVal → JsObj → JsObj))
    (ns1 st : JsObj) (X : String) (k : String) : Prop :=
  match A k with
  | some f => hasKey (f (lookupJs ns1 k) st) X = false
  | Option.none => k ≠ X

theorem changedStep_preserve (A : String → Option (JsVal → JsObj → JsObj))
    (st : JsObj) (ch : Bool) (ns1 : JsObj) (acc : JsObj × List Event)
    (X k : String) (h : untouchedKey A ns1 st X k) :
    hasKey (changedStep A st ch ns1 acc k).1 X = hasKey acc.1 X ∧
    lookupJs (changedStep A st ch ns1 acc k).1 X = lookupJs acc.1 X := by
  cases hAk : A k with
  | some f =>
      rw [untouchedKey, hAk] at h
      simp only [changedStep, hAk]
      exact ⟨by rw [hasKey_assignObj, h, Bool.or_false],
             lookupJs_assignObj_of_not_has _ _ _ h⟩
  | none =>
      rw [untouchedKey, hAk] at h
      have hb : (k == X) = false := by simp [h]
      by_cases hc : ch
      · by_cases hv : lookupJs ns1 k ≠ lookupJs st k
        · simp only [changedStep, hAk, hc, if_pos hv, if_true]
          exact ⟨by rw [hasKey_setKey, hb, Bool.false_or],
                 by rw [lookupJs_setKey, if_neg h]⟩
        · simp [changedStep, hAk, hc, hv]
      · simp only [changedStep, hAk, hc, if_false, Bool.false_eq_true]
        exact ⟨by rw [hasKey_setKey, hb, Bool.false_or],
               by rw [lookupJs_setKey, if_neg h]⟩

theorem foldl_changed_preserve (A : String → Option (JsVal → JsObj → JsObj))
    (st : JsObj) (ch : Bool) (ns1 : JsObj) (keys : List String)
    (acc : JsObj × List Event) (X : String)
    (h : ∀ k ∈ keys, untouchedKey A ns1 st X k) :
    hasKey (List.foldl (changedStep A st ch ns1) acc keys).1 X = hasKey acc.1 X ∧
    lookupJs (List.foldl (changedStep A st ch ns1) acc keys).1 X = lookupJs acc.1 X := by
  induction keys generalizing acc with
  | nil => exact ⟨rfl, rfl⟩
  | cons k ks ih =>
      rw [List.foldl_cons]
      have hk := changedStep_preserve A st ch ns1 acc X k (h k (List.mem_cons_self k ks))
      have hks := ih (changedStep A st ch ns1 acc k)
        (fun k2 hk2 => h k2 (List.mem_cons_of_mem k hk2))
      exact ⟨hks.1.trans hk.1, hks.2.trans hk.2⟩

theorem changedStep_hasKey_mono (A : String → Option (JsVal → JsObj → JsObj))
    (st : JsObj) (ch : Bool) (ns1 : JsObj) (acc : JsObj × List Event)
    (X k : String) (h : hasKey acc.1 X = true) :
    hasKey (changedStep A st ch ns1 acc k).1 X = true := by
  cases hAk : A k with
  | some f => simp [changedStep, hAk, hasKey_assignObj, h]
  | none =>
      by_cases hc : ch
      · by_cases hv : lookupJs ns1 k ≠ lookupJs st k
        · simp [changedStep, hAk, hc, hv, hasKey_setKey, h]
        · simp [changedStep, hAk, hc, hv, h]
      · simp [changedStep, hAk, hc, hasKey_setKey, h]

theorem foldl_changed_hasKey_mono (A : String → Option (JsVal → JsObj → JsObj))
    (st : JsObj) (ch : Bool) (ns1 : JsObj) (keys : List String)
    (acc : JsObj × List Event) (X : String) (h : hasKey acc.1 X = true) :
    hasKey (List.foldl (changedStep A st ch ns1) acc keys).1 X = true := by
  induction keys generalizing acc with
  | nil => exact h
  | cons k ks ih =>
      rw [List.foldl_cons]
      exact ih _ (changedStep_hasKey_mono A st ch ns1 acc X k h)

/-- When the step for `X` itself unconditionally writes the pending
value (no action for `X`, and either `check` is off or the value
differs), and no other processed key touches `X`, the final changed-set
holds `X` with the pending value. -/
theorem foldl_changed_sets (A : String → Option (JsVal → JsObj → JsObj))
    (st : JsObj) (ch : Bool) (ns1 : JsObj) (keys : List String)
    (acc : JsObj × List Event) (X : String)
    (hA : A X = Option.none)
    (hch : ch = false ∨ lookupJs ns1 X ≠ lookupJs st X)
    (hunt : ∀ k ∈ keys, k ≠ X → untouchedKey A ns1 st X k)
    (hstart : X ∈ keys ∨
      (hasKey acc.1 X = true ∧ lookupJs acc.1 X = lookupJs ns1 X)) :
    hasKey (List.foldl (changedStep A st ch ns1) acc keys).1 X = true ∧
    lookupJs (List.foldl (changedStep A st ch ns1) acc keys).1 X = lookupJs ns1 X := by
  induction keys generalizing acc with
  | nil =>
      rcases hstart with h | h
      · cases h
      · exact h
  | cons k ks ih =>
      rw [List.foldl_cons]
      by_cases hkX : k = X
      · subst hkX
        have hstep : (changedStep A st ch ns1 acc k).1 = setKey acc.1 k (lookupJs ns1 k) := by
          rcases hch with hc | hv
          · subst hc
            simp [changedStep, hA]
          · simp only [changedStep, hA]
            by_cases hc : ch
            · simp [hc, hv]
            · simp [hc]
        refine ih _ (fun k2 hk2 => hunt k2 (List.mem_cons_of_mem k hk2)) (Or.inr ?_)
        rw [hstep, hasKey_setKey, lookupJs_setKey]
        simp
      · rcases hstart with h | h
        · rcases List.mem_cons.1 h with h2 | h2
          · exact absurd h2.symm hkX
          · exact ih _ (fun k2 hk2 => hunt k2 (List.mem_cons_of_mem k hk2)) (Or.inl h2)
        · have hp := changedStep_preserve A st ch ns1 acc X k
            (hunt k (List.mem_cons_self k ks) hkX)
          refine ih _ (fun k2 hk2 => hunt k2 (List.mem_cons_of_mem k hk2)) (Or.inr ?_)
          exact ⟨hp.1.trans h.1, hp.2.trans h.2⟩

/-- When `check` is on, no action is registered for `X`, the pending
value of `X` equals the current one, and no other processed key touches
`X`, the field `X` never enters the changed-set. -/
theorem foldl_changed_skip (A : String → Option (JsVal → JsObj → JsObj))
    (st : JsObj) (ns1 : JsObj) (keys : List String)
    (acc : JsObj × List Event) (X : String)
    (hA : A X = Option.none)
    (heq : lookupJs ns1 X = lookupJs st X)
    (hunt : ∀ k ∈ keys, k ≠ X → untouchedKey A ns1 st X k)
    (hacc : hasKey acc.1 X = false) :
    hasKey (List.foldl (changedStep A st true ns1) acc keys).1 X = false := by
  induction keys generalizing acc with
  | nil => exact hacc
  | cons k ks ih =>
      rw [List.foldl_cons]
      by_cases hkX : k = X
      · subst hkX
        have hstep : changedStep A st true ns1 acc k = acc := by
          simp [changedStep, hA, heq]
        rw [hstep]
        exact ih _ (fun k2 hk2 => hunt k2 (List.mem_cons_of_mem k hk2)) hacc
      · have hp := changedStep_preserve A st true ns1 acc X k
          (hunt k (List.mem_cons_self k ks) hkX)
        exact ih _ (fun k2 hk2 => hunt k2 (List.mem_cons_of_mem k hk2))
          (hp.1.trans hacc)

/-- C10: for every store and every field key that is truthy as a
JavaScript value (every key except the empty string), `getState` returns
the current value of that field; for the falsy key, the empty string,
`getState` returns the entire state object instead. -/
theorem C10_getState_truthy_key (s : Store) (key : String) :
    (key ≠ "" → getState s key = Sum.inl (lookupJs s.state key)) ∧
    getState s "" = Sum.inr s.state := by
  refine ⟨fun h => ?_, ?_⟩
  · simp [getState, h]
  · simp [getState]

def c10store : Store := mkStore [("a", .num 7)] (fun _ => Option.none)

theorem C10_witness :
    ("a" : String) ≠ "" ∧
    getState c10store "a" = Sum.inl (JsVal.num 7) ∧
    getState c10store "" = Sum.inr [("a", JsVal.num 7)] :=
  ⟨by decide,
   ((C10_getState_truthy_key c10store "a").1 (by decide)).trans (by decide),
   (C10_getState_truthy_key c10store "a").2.trans (by decide)⟩

/-- C7: a dispatch whose pre-dispatch hook returns the boolean `false`
leaves the stored state (value and object identity), the subscriber
registry and the pending-options map unchanged, produces no event at
all (no transform run, no listener invocation, no `afterDispatch`), and
still increments the batch counter by exactly one. -/
theorem C7_veto (s : Store) (ns : JsObj) (o : OptionsArg)
    (f : Nat → JsObj → DispatchOptions → BeforeRes)
    (hf : s.beforeDispatch = some f)
    (hres : f (s.dispatchBatch + 1) ns (effectiveOptions defaultDispatchOptions o)
      = .bool false) :
    dispatch s ns o = ({ s with dispatchBatch := s.dispatchBatch + 1 }, []) ∧
    (dispatch s ns o).1.state = s.state ∧
    (dispatch s ns o).1.stateId = s.stateId ∧
    (dispatch s ns o).1.listeners = s.listeners ∧
    (dispatch s ns o).1.dispatchBatchOptionsMap = s.dispatchBatchOptionsMap ∧
    (dispatch s ns o).1.dispatchBatch = s.dispatchBatch + 1 ∧
    (dispatch s ns o).2 = [] := by
  have hpre : preprocessNext s ns (effectiveOptions defaultDispatchOptions o)
      (s.dispatchBatch + 1) = Option.none := by
    simp [preprocessNext, hf, hres]
  rw [dispatch_vetoed s ns o hpre]
  exact ⟨rfl, rfl, rfl, rfl, rfl, rfl, rfl⟩

def c7hook : Nat → JsObj → DispatchOptions → BeforeRes := fun _ _ _ => .bool false

def c7store : Store :=
  { mkStore [("X", .num 0)] (fun _ => Option.none) with beforeDispatch := some c7hook }

theorem C7_witness :
    c7store.beforeDispatch = some c7hook ∧
    c7hook (c7store.dispatchBatch + 1) [("X", JsVal.num 5)]
      (effectiveOptions defaultDispatchOptions .none) = .bool false ∧
    dispatch c7store [("X", JsVal.num 5)] .none
      = ({ c7store with dispatchBatch := c7store.dispatchBatch + 1 }, []) :=
  ⟨rfl, rfl, (C7_veto c7store [("X", JsVal.num 5)] .none c7hook rfl rfl).1⟩

def c2store : Store := mkStore [("X", .num 0)] (fun _ => Option.none)

/-- C2 counterexample: a non-vetoed dispatch of an empty partial state
has an empty changed-set, yet the stored state object afterwards is a
fresh allocation, not the same object reference as before: the spread
merge replaces the reference unconditionally. -/
theorem C2_counterexample :
    dispatchChangedSet c2store [] .none = some [] ∧
    (dispatch c2store [] .none).1.stateId ≠ c2store.stateId ∧
    (dispatch c2store [] .none).1.state = c2store.state := by
  refine ⟨by decide, by decide, by decide⟩

/-- C2 amended: for every dispatch that is not vetoed and whose
computed changed-set is empty, the stored state keeps its contents
but is a freshly allocated object: its identity is the allocation
counter, so it differs from every previously live object, in
particular from the previous state object. -/
theorem C2_empty_changed_fresh_reference (s : Store) (ns : JsObj) (o : OptionsArg)
    (ns1 : JsObj)
    (hpre : preprocessNext s ns (effectiveOptions defaultDispatchOptions o)
      (s.dispatchBatch + 1) = some ns1)
    (hempty : dispatchChangedSet s ns o = some []) :
    (dispatch s ns o).1.state = s.state ∧
    (dispatch s ns o).1.stateId = s.allocCounter ∧
    (s.stateId ≠ s.allocCounter → (dispatch s ns o).1.stateId ≠ s.stateId) := by
  have hcc := dispatchChangedSet_not_vetoed s ns o ns1 hpre
  rw [hempty] at hcc
  have hcc2 : (computeChanged s.actions s.state
      (effectiveOptions defaultDispatchOptions o).check ns1
      (dedupKeys (ns.map Prod.fst))).1 = [] := (Option.some.injEq _ _ ▸ hcc).symm
  rw [dispatch_not_vetoed s ns o ns1 hpre]
  by_cases ht : s.takeOverDispatch
  · simp only [ht, if_true, hcc2]
    refine ⟨by trivial, by trivial, fun h h2 => h h2.symm⟩
  · simp only [ht, if_false, Bool.false_eq_true, hcc2]
    refine ⟨by trivial, by trivial, fun h h2 => h h2.symm⟩

def c2storeW : Store := mkStore [("Z", .num 4)] (fun _ => Option.none)

theorem C2_witness :
    preprocessNext c2storeW [] (effectiveOptions defaultDispatchOptions .none)
      (c2storeW.dispatchBatch + 1) = some [] ∧
    dispatchChangedSet c2storeW [] .none = some [] ∧
    (dispatch c2storeW [] .none).1.state = c2storeW.state ∧
    (dispatch c2storeW [] .none).1.stateId = c2storeW.allocCounter :=
  ⟨rfl, by decide,
   (C2_empty_changed_fresh_reference c2storeW [] .none [] rfl (by decide)).1,
   (C2_empty_changed_fresh_reference c2storeW [] .none [] rfl (by decide)).2.1⟩

/-- C4: for every field in the dispatched partial state that has a
registered transform, the loop step for that field is exactly the
`Object.assign` of the full record the transform returns into the
changed-set, for either value of `check` and with no comparison against
the current value; consequently, at the whole-dispatch level, every key
of the record returned by the transform of a dispatched field is an own
key of the computed changed-set. -/
theorem C4_transform_precedence :
    (∀ (A : String → Option (JsVal → JsObj → JsObj)) (st ns1 chg : JsObj)
       (evs : List Event) (check : Bool) (key : String)
       (f : JsVal → JsObj → JsObj), A key = some f →
       changedStep A st check ns1 (chg, evs) key =
         (assignObj chg (f (lookupJs ns1 key) st),
          evs ++ [Event.transformCalled key (lookupJs ns1 key) st])) ∧
    (∀ (s : Store) (ns : JsObj) (o : OptionsArg) (ns1 : JsObj) (X : String)
       (f : JsVal → JsObj → JsObj) (changed : JsObj),
       preprocessNext s ns (effectiveOptions defaultDispatchOptions o)
         (s.dispatchBatch + 1) = some ns1 →
       s.actions X = some f →
       hasKey ns X = true →
       dispatchChangedSet s ns o = some changed →
       ∀ y, hasKey (f (lookupJs ns1 X) s.state) y = true →
         hasKey changed y = true) := by
  constructor
  · intro A st ns1 chg evs check key f hA
    simp [changedStep, hA]
  · intro s ns o ns1 X f changed hpre hA hX hchanged y hy
    have hcc := dispatchChangedSet_not_vetoed s ns o ns1 hpre
    rw [hchanged] at hcc
    have hcc2 : changed = (computeChanged s.actions s.state
        (effectiveOptions defaultDispatchOptions o).check ns1
        (dedupKeys (ns.map Prod.fst))).1 := Option.some.injEq _ _ ▸ hcc
    have hmem : X ∈ dedupKeys (ns.map Prod.fst) :=
      (mem_dedupKeys _ _).2 ((hasKey_iff_mem ns X).1 hX)
    obtain ⟨l1, l2, hsplit⟩ := List.append_of_mem hmem
    rw [hcc2, computeChanged, hsplit, List.foldl_append, List.foldl_cons]
    apply foldl_changed_hasKey_mono
    obtain ⟨c1, e1⟩ := List.foldl (changedStep s.actions s.state
      (effectiveOptions defaultDispatchOptions o).check ns1) ([], []) l1
    simp [changedStep, hA, hasKey_assignObj, hy]

def c4actions : String → Option (JsVal → JsObj → JsObj) :=
  fun k => if k = "count" then
    some (fun v _ => [("count", v), ("name", .str "n5")]) else Option.none

def c4store : Store := mkStore [("count", .num 0), ("name", .str "a")] c4actions

def c4fun : JsVal → JsObj → JsObj :=
  fun v _ => [("count", v), ("name", .str "n5")]

theorem C4_witness :
    c4actions "count" = some c4fun ∧
    changedStep c4actions c4store.state true [("count", JsVal.num 0)]
        ([], []) "count" =
      ([("count", JsVal.num 0), ("name", JsVal.str "n5")],
       [Event.transformCalled "count" (JsVal.num 0) c4store.state]) ∧
    hasKey [("count", JsVal.num 5)] "count" = true ∧
    dispatchChangedSet c4store [("count", JsVal.num 5)] .none
      = some [("count", JsVal.num 5), ("name", JsVal.str "n5")] ∧
    hasKey [("count", JsVal.num 5), ("name", JsVal.str "n5")] "name" = true :=
  ⟨rfl,
   ((C4_transform_precedence.1 c4actions c4store.state [("count", JsVal.num 0)]
      [] [] true "count" c4fun rfl).trans (by decide)),
   by decide, by decide,
   C4_transform_precedence.2 c4store [("count", JsVal.num 5)] .none
     [("count", JsVal.num 5)] "count" c4fun
     [("count", JsVal.num 5), ("name", JsVal.str "n5")]
     rfl rfl (by decide) (by decide) "name" (by decide)⟩

/-- C3: in every notification pass, explicit or inline within a
non-hand-off dispatch, a listener registered on field `K` is invoked
exactly when `K` is an own key of the changed-field record of that
pass; listeners on other fields are never invoked. -/
theorem C3_selective_notification (s : Store) (K : String) (l : Nat) :
    (∀ (b : Nat) (changed : JsObj) (o : Option DispatchOptions),
      Event.listenerCalled K l ∈ (executeListeners s b changed o).2 ↔
        hasKey changed K = true ∧ l ∈ listenersOf s.listeners K) ∧
    (∀ (ns : JsObj) (oa : OptionsArg) (ns1 changed : JsObj),
      s.takeOverDispatch = false →
      preprocessNext s ns (effectiveOptions defaultDispatchOptions oa)
        (s.dispatchBatch + 1) = some ns1 →
      dispatchChangedSet s ns oa = some changed →
      (Event.listenerCalled K l ∈ (dispatch s ns oa).2 ↔
        hasKey changed K = true ∧ l ∈ listenersOf s.listeners K)) := by
  constructor
  · intro b changed o
    exact mem_listenerCalled_executeListeners s b changed o K l
  · intro ns oa ns1 changed ht hpre hchanged
    have hcc := dispatchChangedSet_not_vetoed s ns oa ns1 hpre
    rw [hchanged] at hcc
    have hcc2 : changed = (computeChanged s.actions s.state
        (effectiveOptions defaultDispatchOptions oa).check ns1
        (dedupKeys (ns.map Prod.fst))).1 := Option.some.injEq _ _ ▸ hcc
    rw [dispatch_not_vetoed s ns oa ns1 hpre]
    simp only [ht, if_false, Bool.false_eq_true, List.mem_append]
    constructor
    · rintro (h | h)
      · rcases computeChanged_events _ _ _ _ _ _ h with ⟨k, he⟩
        cases he
      · rw [mem_listenerCalled_executeListeners] at h
        exact ⟨hcc2 ▸ h.1, h.2⟩
    · intro h
      refine Or.inr ?_
      rw [mem_listenerCalled_executeListeners]
      exact ⟨hcc2 ▸ h.1, h.2⟩

def c3store : Store :=
  subscribe (subscribe (mkStore [("count", .num 0), ("name", .str "a")]
    (fun _ => Option.none)) 1 "count") 2 "name"

theorem C3_witness :
    c3store.takeOverDispatch = false ∧
    preprocessNext c3store [("count", JsVal.num 1)]
      (effectiveOptions defaultDispatchOptions (.opts (some true) false))
      (c3store.dispatchBatch + 1) = some [("count", JsVal.num 1)] ∧
    dispatchChangedSet c3store [("count", JsVal.num 1)] (.opts (some true) false)
      = some [("count", JsVal.num 1)] ∧
    ((Event.listenerCalled "count" 1 ∈
        (dispatch c3store [("count", JsVal.num 1)] (.opts (some true) false)).2 ↔
      hasKey [("count", JsVal.num 1)] "count" = true ∧
        1 ∈ listenersOf c3store.listeners "count") ∧
     (Event.listenerCalled "name" 2 ∈
        (dispatch c3store [("count", JsVal.num 1)] (.opts (some true) false)).2 ↔
      hasKey [("count", JsVal.num 1)] "name" = true ∧
        2 ∈ listenersOf c3store.listeners "name")) :=
  ⟨rfl, rfl, by decide,
   (C3_selective_notification c3store "count" 1).2 [("count", JsVal.num 1)]
     (.opts (some true) false) [("count", JsVal.num 1)] [("count", JsVal.num 1)]
     rfl rfl (by decide),
   (C3_selective_notification c3store "name" 2).2 [("count", JsVal.num 1)]
     (.opts (some true) false) [("count", JsVal.num 1)] [("count", JsVal.num 1)]
     rfl rfl (by decide)⟩

/-- C9: within a single dispatch every transform invocation receives,
as its second argument, the state exactly as it was before the dispatch
began, so contributions of earlier keys are never visible to later
transforms; and for a non-vetoed dispatch the stored state is replaced
exactly once, after all input keys have been processed, by the merge of
the pre-dispatch state with the full changed-set. -/
theorem C9_transforms_see_pre_state (s : Store) (ns : JsObj) (o : OptionsArg) :
    (∀ (k : String) (v : JsVal) (st : JsObj),
      Event.transformCalled k v st ∈ (dispatch s ns o).2 → st = s.state) ∧
    (∀ ns1, preprocessNext s ns (effectiveOptions defaultDispatchOptions o)
        (s.dispatchBatch + 1) = some ns1 →
      (dispatch s ns o).1.allocCounter = s.allocCounter + 1 ∧
      (dispatch s ns o).1.stateId = s.allocCounter ∧
      (dispatch s ns o).1.state = assignObj s.state
        (computeChanged s.actions s.state
          (effectiveOptions defaultDispatchOptions o).check ns1
          (dedupKeys (ns.map Prod.fst))).1) := by
  constructor
  · intro k v st hmem
    cases hpre : preprocessNext s ns (effectiveOptions defaultDispatchOptions o)
      (s.dispatchBatch + 1) with
    | none =>
        rw [dispatch_vetoed s ns o hpre] at hmem
        cases hmem
    | some ns1 =>
        rw [dispatch_not_vetoed s ns o ns1 hpre] at hmem
        by_cases ht : s.takeOverDispatch
        · simp only [ht, if_true] at hmem
          rcases computeChanged_events _ _ _ _ _ _ hmem with ⟨k2, he⟩
          cases he
          rfl
        · simp only [ht, if_false, Bool.false_eq_true, List.mem_append] at hmem
          rcases hmem with h | h
          · rcases computeChanged_events _ _ _ _ _ _ h with ⟨k2, he⟩
            cases he
            rfl
          · exact absurd h (transformCalled_not_mem_executeListeners _ _ _ _ _ _ _)
  · intro ns1 hpre
    rw [dispatch_not_vetoed s ns o ns1 hpre]
    by_cases ht : s.takeOverDispatch
    · simp only [ht, if_true]
      exact ⟨by trivial, by trivial, by trivial⟩
    · simp only [ht, if_false, Bool.false_eq_true]
      exact ⟨by trivial, by trivial, by trivial⟩

def c9actions : String → Option (JsVal → JsObj → JsObj) :=
  fun k =>
    if k = "a" then some (fun v _ => [("a", v), ("b", .num 10)])
    else if k = "b" then some (fun _ st => [("c", lookupJs st "b")])
    else Option.none

def c9store : Store := mkStore [("a", .num 0), ("b", .num 1), ("c", .num 2)] c9actions

theorem C9_witness :
    preprocessNext c9store [("a", JsVal.num 5), ("b", JsVal.num 7)]
      (effectiveOptions defaultDispatchOptions .none)
      (c9store.dispatchBatch + 1) = some [("a", JsVal.num 5), ("b", JsVal.num 7)] ∧
    Event.transformCalled "b" (JsVal.num 7) c9store.state ∈
      (dispatch c9store [("a", JsVal.num 5), ("b", JsVal.num 7)] .none).2 ∧
    ((dispatch c9store [("a", JsVal.num 5), ("b", JsVal.num 7)] .none).1.state
      = assignObj c9store.state
          (computeChanged c9store.actions c9store.state
            (effectiveOptions defaultDispatchOptions .none).check
            [("a", JsVal.num 5), ("b", JsVal.num 7)]
            (dedupKeys ([("a", JsVal.num 5), ("b", JsVal.num 7)].map Prod.fst))).1) ∧
    (dispatch c9store [("a", JsVal.num 5), ("b", JsVal.num 7)] .none).1.state
      = [("a", JsVal.num 5), ("b", JsVal.num 10), ("c", JsVal.num 1)] :=
  ⟨rfl, by decide,
   ((C9_transforms_see_pre_state c9store [("a", JsVal.num 5), ("b", JsVal.num 7)]
      .none).2 [("a", JsVal.num 5), ("b", JsVal.num 7)] rfl).2.2,
   by decide⟩

def c5actions : String → Option (JsVal → JsObj → JsObj) :=
  fun k => if k = "Y" then some (fun _ _ => [("X", JsVal.num 1)]) else Option.none

def c5store : Store :=
  subscribe (mkStore [("X", .num 0), ("Y", .num 0)] c5actions) 7 "X"

/-- C5 counterexample: with `check` on, field `X` has no transform and
is dispatched with its current value, yet `X` ends up in the changed-set
and the listener on `X` fires, because the transform of the other
dispatched field `Y` returns a record containing `X`. -/
theorem C5_counterexample :
    (effectiveOptions defaultDispatchOptions (.opts (some true) false)).check = true ∧
    c5actions "X" = Option.none ∧
    lookupJs [("X", JsVal.num 0), ("Y", JsVal.num 5)] "X" = lookupJs c5store.state "X" ∧
    dispatchChangedSet c5store [("X", JsVal.num 0), ("Y", JsVal.num 5)]
      (.opts (some true) false) = some [("X", JsVal.num 1)] ∧
    Event.listenerCalled "X" 7 ∈
      (dispatch c5store [("X", JsVal.num 0), ("Y", JsVal.num 5)]
        (.opts (some true) false)).2 :=
  ⟨by decide, by simp [c5actions], by decide, by decide, by decide⟩

/-- C5 amended: with effective `check` on and no transform registered
for input field `X`, and provided no other dispatched field has a
transform whose return record contains `X`: dispatching the pending
value of `X` (after any hook merge) equal to its current value leaves
`X` out of the changed-set and invokes no listener on `X`, while a
different pending value puts `X` into the changed-set with that value. -/
theorem C5_check_semantics_amended (s : Store) (ns : JsObj) (oa : OptionsArg)
    (ns1 : JsObj) (X : String) (changed : JsObj)
    (hpre : preprocessNext s ns (effectiveOptions defaultDispatchOptions oa)
      (s.dispatchBatch + 1) = some ns1)
    (hcheck : (effectiveOptions defaultDispatchOptions oa).check = true)
    (hA : s.actions X = Option.none)
    (hunt : ∀ k ∈ ns.map Prod.fst, k ≠ X → ∀ f, s.actions k = some f →
      hasKey (f (lookupJs ns1 k) s.state) X = false)
    (hchanged : dispatchChangedSet s ns oa = some changed) :
    (lookupJs ns1 X = lookupJs s.state X →
      hasKey changed X = false ∧
      ∀ l, Event.listenerCalled X l ∉ (dispatch s ns oa).2) ∧
    (lookupJs ns1 X ≠ lookupJs s.state X → hasKey ns X = true →
      hasKey changed X = true ∧ lookupJs changed X = lookupJs ns1 X) := by
  have hcc := dispatchChangedSet_not_vetoed s ns oa ns1 hpre
  rw [hchanged] at hcc
  have hcc2 : changed = (computeChanged s.actions s.state
      (effectiveOptions defaultDispatchOptions oa).check ns1
      (dedupKeys (ns.map Prod.fst))).1 := Option.some.injEq _ _ ▸ hcc
  have huK : ∀ k ∈ dedupKeys (ns.map Prod.fst), k ≠ X →
      untouchedKey s.actions ns1 s.state X k := by
    intro k hk hkX
    unfold untouchedKey
    cases hAk : s.actions k with
    | some f => exact hunt k ((mem_dedupKeys _ _).1 hk) hkX f hAk
    | none => exact hkX
  constructor
  · intro heq
    have hkey : hasKey changed X = false := by
      rw [hcc2, computeChanged, hcheck]
      exact foldl_changed_skip s.actions s.state ns1 _ ([], []) X hA heq huK rfl
    refine ⟨hkey, fun l hmem => ?_⟩
    rw [dispatch_not_vetoed s ns oa ns1 hpre] at hmem
    by_cases ht : s.takeOverDispatch
    · simp only [ht, if_true] at hmem
      rcases computeChanged_events _ _ _ _ _ _ hmem with ⟨k2, he⟩
      cases he
    · simp only [ht, if_false, Bool.false_eq_true, List.mem_append] at hmem
      rcases hmem with h | h
      · rcases computeChanged_events _ _ _ _ _ _ h with ⟨k2, he⟩
        cases he
      · rw [mem_listenerCalled_executeListeners] at h
        rw [hcc2] at hkey
        rw [hkey] at h
        cases h.1
  · intro hneq hX
    rw [hcc2, computeChanged]
    exact foldl_changed_sets s.actions s.state _ ns1 _ ([], []) X hA
      (Or.inr hneq) huK
      (Or.inl ((mem_dedupKeys _ _).2 ((hasKey_iff_mem ns X).1 hX)))

def c5wstore : Store :=
  subscribe (mkStore [("X", .num 0), ("Y", .num 3)] (fun _ => Option.none)) 5 "X"

theorem C5_witness :
    (effectiveOptions defaultDispatchOptions (.opts (some true) false)).check = true ∧
    c5wstore.actions "X" = Option.none ∧
    dispatchChangedSet c5wstore [("X", JsVal.num 0)] (.opts (some true) false)
      = some [] ∧
    Event.listenerCalled "X" 5 ∉
      (dispatch c5wstore [("X", JsVal.num 0)] (.opts (some true) false)).2 ∧
    dispatchChangedSet c5wstore [("X", JsVal.num 9)] (.opts (some true) false)
      = some [("X", JsVal.num 9)] ∧
    hasKey [("X", JsVal.num 9)] "X" = true ∧
    lookupJs [("X", JsVal.num 9)] "X" = lookupJs [("X", JsVal.num 9)] "X" :=
  ⟨by decide, rfl, by decide,
   ((C5_check_semantics_amended c5wstore [("X", JsVal.num 0)]
      (.opts (some true) false) [("X", JsVal.num 0)] "X" [] rfl (by decide) rfl
      (by intro k hk hkX f hf; cases hf) (by decide)).1 (by decide)).2 5,
   by decide,
   ((C5_check_semantics_amended c5wstore [("X", JsVal.num 9)]
      (.opts (some true) false) [("X", JsVal.num 9)] "X" [("X", JsVal.num 9)]
      rfl (by decide) rfl (by intro k hk hkX f hf; cases hf)
      (by decide)).2 (by decide) (by decide)).1,
   rfl⟩

def c1hook : Nat → JsObj → DispatchOptions → BeforeRes :=
  fun _ _ _ => .obj [("Y", .num 5)]

def c1store : Store :=
  { subscribe (mkStore [("X", .num 0)] (fun _ => Option.none)) 3 "Y" with
      beforeDispatch := some c1hook }

/-- C1 counterexample: the pre-dispatch hook returns the object with
key `Y`, absent from the original partial state, yet `Y` is not in the
computed changed-set, is not applied to the state, and no listener at
all is invoked, because the key list of the loop was captured from the
original argument before the hook ran. -/
theorem C1_counterexample :
    c1store.beforeDispatch = some c1hook ∧
    c1hook (c1store.dispatchBatch + 1) [("X", JsVal.num 1)]
      (effectiveOptions defaultDispatchOptions .none) = .obj [("Y", JsVal.num 5)] ∧
    hasKey [("X", JsVal.num 1)] "Y" = false ∧
    dispatchChangedSet c1store [("X", JsVal.num 1)] .none = some [("X", JsVal.num 1)] ∧
    hasKey (dispatch c1store [("X", JsVal.num 1)] .none).1.state "Y" = false ∧
    (dispatch c1store [("X", JsVal.num 1)] .none).2 = [] :=
  ⟨rfl, rfl, by decide, by decide, by decide, by decide⟩

/-- C1 amended: the pre-dispatch hook result is merged into the pending
partial state in place, but the processed key list was captured from
the original argument before the hook ran, so the hook cannot extend
the key set: provided no dispatched field has a registered transform
whose return record contains `Y`, a key `Y` that is absent from the
original dispatch input is not included in the computed changed-set
(it is not applied to the state and no listener on `Y` fires) even
when the hook returns an object containing `Y` — a key absent from the
original input can enter the changed-set only through the return
record of a dispatched field's transform, never through the hook; and
for a key `X` of the original input that has no registered transform,
when `check` is off and no other dispatched field's transform emits
`X`, the changed-set holds `X` with the value the hook merged, so the
hook can rewrite the values of keys already present in the original
input. -/
theorem C1_hook_augmentation_amended (s : Store) (ns : JsObj) (oa : OptionsArg)
    (f : Nat → JsObj → DispatchOptions → BeforeRes) (m : JsObj) (Y : String)
    (changed : JsObj)
    (hf : s.beforeDispatch = some f)
    (hres : f (s.dispatchBatch + 1) ns (effectiveOptions defaultDispatchOptions oa)
      = .obj m)
    (hY : hasKey ns Y = false)
    (hunt : ∀ k ∈ ns.map Prod.fst, ∀ g, s.actions k = some g →
      hasKey (g (lookupJs (assignObj ns m) k) s.state) Y = false)
    (hchanged : dispatchChangedSet s ns oa = some changed) :
    hasKey changed Y = false ∧
    hasKey (dispatch s ns oa).1.state Y = hasKey s.state Y ∧
    lookupJs (dispatch s ns oa).1.state Y = lookupJs s.state Y ∧
    (∀ l, Event.listenerCalled Y l ∉ (dispatch s ns oa).2) ∧
    (∀ X, hasKey ns X = true → s.actions X = Option.none →
      (effectiveOptions defaultDispatchOptions oa).check = false →
      (∀ k ∈ ns.map Prod.fst, k ≠ X → ∀ g, s.actions k = some g →
        hasKey (g (lookupJs (assignObj ns m) k) s.state) X = false) →
      hasKey changed X = true ∧
      lookupJs changed X = lookupJs (assignObj ns m) X) := by
  have hpre : preprocessNext s ns (effectiveOptions defaultDispatchOptions oa)
      (s.dispatchBatch + 1) = some (assignObj ns m) := by
    simp [preprocessNext, hf, hres]
  have hcc := dispatchChangedSet_not_vetoed s ns oa _ hpre
  rw [hchanged] at hcc
  have hcc2 : changed = (computeChanged s.actions s.state
      (effectiveOptions defaultDispatchOptions oa).check (assignObj ns m)
      (dedupKeys (ns.map Prod.fst))).1 := Option.some.injEq _ _ ▸ hcc
  have huK : ∀ k ∈ dedupKeys (ns.map Prod.fst),
      untouchedKey s.actions (assignObj ns m) s.state Y k := by
    intro k hk
    have hkmem := (mem_dedupKeys _ _).1 hk
    unfold untouchedKey
    cases hAk : s.actions k with
    | some g => exact hunt k hkmem g hAk
    | none =>
        intro hkY
        subst hkY
        rw [(hasKey_iff_mem ns k).2 hkmem] at hY
        cases hY
  have hkeyY : hasKey changed Y = false := by
    rw [hcc2, computeChanged]
    exact (foldl_changed_preserve s.actions s.state _ _ _ ([], []) Y huK).1
  refine ⟨hkeyY, ?_, ?_, ?_, ?_⟩
  · rw [dispatch_not_vetoed s ns oa _ hpre]
    rw [hcc2] at hkeyY
    by_cases ht : s.takeOverDispatch
    · simp only [ht, if_true]
      rw [hasKey_assignObj, hkeyY, Bool.or_false]
    · simp only [ht, if_false, Bool.false_eq_true]
      rw [hasKey_assignObj, hkeyY, Bool.or_false]
  · rw [dispatch_not_vetoed s ns oa _ hpre]
    rw [hcc2] at hkeyY
    by_cases ht : s.takeOverDispatch
    · simp only [ht, if_true]
      exact lookupJs_assignObj_of_not_has _ _ _ hkeyY
    · simp only [ht, if_false, Bool.false_eq_true]
      exact lookupJs_assignObj_of_not_has _ _ _ hkeyY
  · intro l hmem
    rw [dispatch_not_vetoed s ns oa _ hpre] at hmem
    by_cases ht : s.takeOverDispatch
    · simp only [ht, if_true] at hmem
      rcases computeChanged_events _ _ _ _ _ _ hmem with ⟨k2, he⟩
      cases he
    · simp only [ht, if_false, Bool.false_eq_true, List.mem_append] at hmem
      rcases hmem with h | h
      · rcases computeChanged_events _ _ _ _ _ _ h with ⟨k2, he⟩
        cases he
      · rw [mem_listenerCalled_executeListeners] at h
        rw [hcc2] at hkeyY
        rw [hkeyY] at h
        cases h.1
  · intro X hX hAX hcheck huntX
    rw [hcc2, computeChanged]
    exact foldl_changed_sets s.actions s.state _ (assignObj ns m) _ ([], []) X
      hAX (Or.inl hcheck)
      (fun k hk hkX => by
        have hkmem := (mem_dedupKeys _ _).1 hk
        unfold untouchedKey
        cases hAk : s.actions k with
        | some g => exact huntX k hkmem hkX g hAk
        | none => exact hkX)
      (Or.inl ((mem_dedupKeys _ _).2 ((hasKey_iff_mem ns X).1 hX)))

def c1whook : Nat → JsObj → DispatchOptions → BeforeRes :=
  fun _ _ _ => .obj [("Y", .num 5), ("Z", .num 42)]

def c1wactions : String → Option (JsVal → JsObj → JsObj) :=
  fun k => if k = "X" then some (fun v _ => [("X", v), ("W", .num 0)])
    else Option.none

def c1wstore : Store :=
  { subscribe (mkStore [("X", .num 0), ("Z", .num 0), ("W", .num 0)] c1wactions)
      3 "Y" with
      beforeDispatch := some c1whook }

theorem C1_witness :
    c1wstore.beforeDispatch = some c1whook ∧
    c1whook (c1wstore.dispatchBatch + 1) [("X", JsVal.num 1), ("Z", JsVal.num 7)]
      (effectiveOptions defaultDispatchOptions .none)
      = .obj [("Y", JsVal.num 5), ("Z", JsVal.num 42)] ∧
    hasKey [("X", JsVal.num 1), ("Z", JsVal.num 7)] "Y" = false ∧
    dispatchChangedSet c1wstore [("X", JsVal.num 1), ("Z", JsVal.num 7)] .none
      = some [("X", JsVal.num 1), ("W", JsVal.num 0), ("Z", JsVal.num 42)] ∧
    hasKey [("X", JsVal.num 1), ("W", JsVal.num 0), ("Z", JsVal.num 42)] "Y"
      = false ∧
    Event.listenerCalled "Y" 3 ∉
      (dispatch c1wstore [("X", JsVal.num 1), ("Z", JsVal.num 7)] .none).2 ∧
    hasKey [("X", JsVal.num 1), ("W", JsVal.num 0), ("Z", JsVal.num 42)] "Z"
      = true ∧
    lookupJs [("X", JsVal.num 1), ("W", JsVal.num 0), ("Z", JsVal.num 42)] "Z"
      = lookupJs (assignObj [("X", JsVal.num 1), ("Z", JsVal.num 7)]
          [("Y", JsVal.num 5), ("Z", JsVal.num 42)]) "Z" ∧
    lookupJs (assignObj [("X", JsVal.num 1), ("Z", JsVal.num 7)]
      [("Y", JsVal.num 5), ("Z", JsVal.num 42)]) "Z" = JsVal.num 42 :=
  ⟨rfl, rfl, by decide, by decide,
   (C1_hook_augmentation_amended c1wstore [("X", JsVal.num 1), ("Z", JsVal.num 7)]
     .none c1whook [("Y", JsVal.num 5), ("Z", JsVal.num 42)] "Y"
     [("X", JsVal.num 1), ("W", JsVal.num 0), ("Z", JsVal.num 42)]
     rfl rfl (by decide)
     (by
       intro k hk g hg
       rcases List.mem_cons.1 hk with h | h
       · subst h
         have hg2 : some (fun (v : JsVal) (_ : JsObj) =>
             [("X", v), ("W", JsVal.num 0)]) = some g := hg
         cases hg2
         decide
       · rcases List.mem_cons.1 h with h2 | h2
         · subst h2
           cases show (Option.none : Option (JsVal → JsObj → JsObj)) = some g
             from hg
         · cases h2)
     (by decide)).1,
   (C1_hook_augmentation_amended c1wstore [("X", JsVal.num 1), ("Z", JsVal.num 7)]
     .none c1whook [("Y", JsVal.num 5), ("Z", JsVal.num 42)] "Y"
     [("X", JsVal.num 1), ("W", JsVal.num 0), ("Z", JsVal.num 42)]
     rfl rfl (by decide)
     (by
       intro k hk g hg
       rcases List.mem_cons.1 hk with h | h
       · subst h
         have hg2 : some (fun (v : JsVal) (_ : JsObj) =>
             [("X", v), ("W", JsVal.num 0)]) = some g := hg
         cases hg2
         decide
       · rcases List.mem_cons.1 h with h2 | h2
         · subst h2
           cases show (Option.none : Option (JsVal → JsObj → JsObj)) = some g
             from hg
         · cases h2)
     (by decide)).2.2.2.1 3,
   (C1_hook_augmentation_amended c1wstore [("X", JsVal.num 1), ("Z", JsVal.num 7)]
     .none c1whook [("Y", JsVal.num 5), ("Z", JsVal.num 42)] "Y"
     [("X", JsVal.num 1), ("W", JsVal.num 0), ("Z", JsVal.num 42)]
     rfl rfl (by decide)
     (by
       intro k hk g hg
       rcases List.mem_cons.1 hk with h | h
       · subst h
         have hg2 : some (fun (v : JsVal) (_ : JsObj) =>
             [("X", v), ("W", JsVal.num 0)]) = some g := hg
         cases hg2
         decide
       · rcases List.mem_cons.1 h with h2 | h2
         · subst h2
           cases show (Option.none : Option (JsVal → JsObj → JsObj)) = some g
             from hg
         · cases h2)
     (by decide)).2.2.2.2 "Z" (by decide) rfl (by decide)
     (by
       intro k hk hkZ g hg
       rcases List.mem_cons.1 hk with h | h
       · subst h
         have hg2 : some (fun (v : JsVal) (_ : JsObj) =>
             [("X", v), ("W", JsVal.num 0)]) = some g := hg
         cases hg2
         decide
       · rcases List.mem_cons.1 h with h2 | h2
         · subst h2
           cases show (Option.none : Option (JsVal → JsObj → JsObj)) = some g
             from hg
         · cases h2) |>.1,
   by decide, by decide⟩

def c8store : Store :=
  { mkStore [("A", .num 0)] (fun _ => Option.none) with takeOverDispatch := true }

/-- C8 counterexample: after a hand-off dispatch, notifying its batch
through `executeListeners` with the options passed explicitly leaves
the pending-options entry of that batch in the map, so an entry can
outlive the notification of its batch. -/
theorem C8_counterexample :
    c8store.takeOverDispatch = true ∧
    (dispatch c8store [("A", JsVal.num 1)] .none).1.dispatchBatchOptionsMap
      = [(1, ⟨false, false⟩)] ∧
    mapGet (executeListeners (dispatch c8store [("A", JsVal.num 1)] .none).1 1
        [("A", JsVal.num 1)]
        (some ⟨false, false⟩)).1.dispatchBatchOptionsMap 1
      = some ⟨false, false⟩ :=
  ⟨rfl, by decide, by decide⟩

/-- C8 amended: a dispatch with hand-off mode off never changes the
pending-options map; a non-vetoed hand-off dispatch stores exactly the
entry for its own fresh batch number; an `executeListeners` call with
the options argument omitted removes the entry of its batch, while a
call passing options explicitly leaves the map unchanged; and every
entry of the map names an already allocated batch number, a property
every dispatch preserves. -/
theorem C8_pending_map_amended (s : Store) (ns : JsObj) (oa : OptionsArg)
    (b : Nat) (changed : JsObj) (o : DispatchOptions) :
    (s.takeOverDispatch = false →
      (dispatch s ns oa).1.dispatchBatchOptionsMap = s.dispatchBatchOptionsMap) ∧
    (mapGet (executeListeners s b changed
      Option.none).1.dispatchBatchOptionsMap b = Option.none) ∧
    ((executeListeners s b changed (some o)).1.dispatchBatchOptionsMap
      = s.dispatchBatchOptionsMap) ∧
    (s.takeOverDispatch = true →
      ∀ ns1, preprocessNext s ns (effectiveOptions defaultDispatchOptions oa)
        (s.dispatchBatch + 1) = some ns1 →
      (dispatch s ns oa).1.dispatchBatchOptionsMap =
        mapSet s.dispatchBatchOptionsMap (s.dispatchBatch + 1)
          (effectiveOptions defaultDispatchOptions oa)) ∧
    ((∀ k, mapGet s.dispatchBatchOptionsMap k ≠ Option.none →
        k ≤ s.dispatchBatch) →
      ∀ k, mapGet (dispatch s ns oa).1.dispatchBatchOptionsMap k ≠ Option.none →
        k ≤ (dispatch s ns oa).1.dispatchBatch) := by
  refine ⟨?_, ?_, ?_, ?_, ?_⟩
  · intro ht
    cases hpre : preprocessNext s ns (effectiveOptions defaultDispatchOptions oa)
      (s.dispatchBatch + 1) with
    | none => rw [dispatch_vetoed s ns oa hpre]
    | some ns1 =>
        rw [dispatch_not_vetoed s ns oa ns1 hpre]
        simp only [ht, if_false, Bool.false_eq_true]
  · rw [executeListeners_fst_none]
    simp [mapGet_mapDelete]
  · rw [executeListeners_fst_some]
  · intro ht ns1 hpre
    rw [dispatch_not_vetoed s ns oa ns1 hpre]
    simp only [ht, if_true]
  · intro hinv k
    cases hpre : preprocessNext s ns (effectiveOptions defaultDispatchOptions oa)
      (s.dispatchBatch + 1) with
    | none =>
        rw [dispatch_vetoed s ns oa hpre]
        intro hk
        exact Nat.le_succ_of_le (hinv k hk)
    | some ns1 =>
        rw [dispatch_not_vetoed s ns oa ns1 hpre]
        by_cases ht : s.takeOverDispatch
        · simp only [ht, if_true]
          intro hk
          rw [mapGet_mapSet] at hk
          by_cases hbk : s.dispatchBatch + 1 = k
          · exact Nat.le_of_eq hbk.symm
          · rw [if_neg hbk] at hk
            exact Nat.le_succ_of_le (hinv k hk)
        · simp only [ht, if_false, Bool.false_eq_true]
          intro hk
          exact Nat.le_succ_of_le (hinv k hk)

def c8wstore : Store := mkStore [("A", .num 0)] (fun _ => Option.none)

def c8wstoreT : Store :=
  { mkStore [("A", .num 0)] (fun _ => Option.none) with takeOverDispatch := true }

theorem C8_witness :
    c8wstore.takeOverDispatch = false ∧
    (dispatch c8wstore [("A", JsVal.num 1)] .none).1.dispatchBatchOptionsMap
      = c8wstore.dispatchBatchOptionsMap ∧
    c8wstoreT.takeOverDispatch = true ∧
    preprocessNext c8wstoreT [("A", JsVal.num 1)]
      (effectiveOptions defaultDispatchOptions .none)
      (c8wstoreT.dispatchBatch + 1) = some [("A", JsVal.num 1)] ∧
    (dispatch c8wstoreT [("A", JsVal.num 1)] .none).1.dispatchBatchOptionsMap
      = mapSet c8wstoreT.dispatchBatchOptionsMap (c8wstoreT.dispatchBatch + 1)
          (effectiveOptions defaultDispatchOptions .none) ∧
    mapGet (executeListeners (dispatch c8wstoreT [("A", JsVal.num 1)] .none).1 1
        [("A", JsVal.num 1)] Option.none).1.dispatchBatchOptionsMap 1
      = Option.none :=
  ⟨rfl,
   (C8_pending_map_amended c8wstore [("A", JsVal.num 1)] .none 1
     [("A", JsVal.num 1)] ⟨false, false⟩).1 rfl,
   rfl, rfl,
   (C8_pending_map_amended c8wstoreT [("A", JsVal.num 1)] .none 1
     [("A", JsVal.num 1)] ⟨false, false⟩).2.2.2.1 rfl [("A", JsVal.num 1)] rfl,
   (C8_pending_map_amended (dispatch c8wstoreT [("A", JsVal.num 1)] .none).1
     [] .none 1 [("A", JsVal.num 1)] ⟨false, false⟩).2.1⟩

theorem not_mem_listenerEventsFor (L : ListenerMap) (c : JsObj) (e : Event)
    (h : ∀ K l, e ≠ Event.listenerCalled K l) : e ∉ listenerEventsFor L c := by
  intro hmem
  rcases listenerEventsFor_shape _ _ _ hmem with ⟨K, l, he⟩
  exact h K l he

/-- C6: with hand-off mode on, a (non-vetoed) dispatch updates the
state, produces no listener invocation, no callback and no warning, and
stores its effective options under its fresh batch number; a later
`executeListeners` call for that batch with the options argument
omitted consumes the stored options exactly once (the map entry is
removed), fires the listeners of the changed keys and the `onChanged`
callback; a second such call for the same batch emits the non-fatal
warning diagnostic, still fires the per-field listeners and the
`afterDispatch` hook, and only skips the `onChanged` callback. Every
operation is a total function of the embedding, so no call throws. -/
theorem C6_handoff_correlation (s : Store) (ns : JsObj) (oa : OptionsArg)
    (optionsH : DispatchOptions) (b : Nat) (changed : JsObj)
    (hTake : s.takeOverDispatch = true)
    (hBefore : s.beforeDispatch = Option.none)
    (hOpt : optionsH = effectiveOptions defaultDispatchOptions oa)
    (hb : b = s.dispatchBatch + 1)
    (hch : changed = (computeChanged s.actions s.state optionsH.check ns
      (dedupKeys (ns.map Prod.fst))).1) :
    (dispatch s ns oa).1.state = assignObj s.state changed ∧
    (∀ K l, Event.listenerCalled K l ∉ (dispatch s ns oa).2) ∧
    (∀ st, Event.onChangedCalled st ∉ (dispatch s ns oa).2) ∧
    (∀ c, Event.afterDispatchCalled c ∉ (dispatch s ns oa).2) ∧
    (∀ n, Event.warnNoOptions n ∉ (dispatch s ns oa).2) ∧
    mapGet (dispatch s ns oa).1.dispatchBatchOptionsMap b = some optionsH ∧
    (∀ s1, s1 = (dispatch s ns oa).1 →
      mapGet (executeListeners s1 b changed
        Option.none).1.dispatchBatchOptionsMap b = Option.none ∧
      (∀ K l, Event.listenerCalled K l ∈
          (executeListeners s1 b changed Option.none).2 ↔
        hasKey changed K = true ∧ l ∈ listenersOf s.listeners K) ∧
      Event.warnNoOptions b ∉ (executeListeners s1 b changed Option.none).2 ∧
      (optionsH.onChanged = true → Event.onChangedCalled s1.state ∈
        (executeListeners s1 b changed Option.none).2) ∧
      (s.afterDispatchOn = true → Event.afterDispatchCalled changed ∈
        (executeListeners s1 b changed Option.none).2) ∧
      (∀ s2, s2 = (executeListeners s1 b changed Option.none).1 →
        Event.warnNoOptions b ∈ (executeListeners s2 b changed Option.none).2 ∧
        (∀ K l, Event.listenerCalled K l ∈
            (executeListeners s2 b changed Option.none).2 ↔
          hasKey changed K = true ∧ l ∈ listenersOf s.listeners K) ∧
        (∀ st, Event.onChangedCalled st ∉
          (executeListeners s2 b changed Option.none).2) ∧
        (s.afterDispatchOn = true → Event.afterDispatchCalled changed ∈
          (executeListeners s2 b changed Option.none).2))) := by
  subst hOpt hb hch
  have hpre : preprocessNext s ns (effectiveOptions defaultDispatchOptions oa)
      (s.dispatchBatch + 1) = some ns := by
    simp [preprocessNext, hBefore]
  rw [dispatch_not_vetoed s ns oa ns hpre]
  simp only [hTake, if_true]
  refine ⟨by trivial, ?_, ?_, ?_, ?_, ?_, ?_⟩
  · intro K l hmem
    rcases computeChanged_events _ _ _ _ _ _ hmem with ⟨k2, he⟩
    cases he
  · intro st hmem
    rcases computeChanged_events _ _ _ _ _ _ hmem with ⟨k2, he⟩
    cases he
  · intro c hmem
    rcases computeChanged_events _ _ _ _ _ _ hmem with ⟨k2, he⟩
    cases he
  · intro n hmem
    rcases computeChanged_events _ _ _ _ _ _ hmem with ⟨k2, he⟩
    cases he
  · rw [mapGet_mapSet]
    simp
  · intro s1 hs1
    subst hs1
    have hm1 : mapGet (mapSet s.dispatchBatchOptionsMap (s.dispatchBatch + 1)
        (effectiveOptions defaultDispatchOptions oa)) (s.dispatchBatch + 1)
        = some (effectiveOptions defaultDispatchOptions oa) := by
      rw [mapGet_mapSet]
      simp
    refine ⟨?_, ?_, ?_, ?_, ?_, ?_⟩
    · rw [executeListeners_fst_none]
      simp [mapGet_mapDelete]
    · intro K l
      exact mem_listenerCalled_executeListeners _ _ _ _ K l
    · rw [executeListeners_none_found _ _ _ _ hm1]
      intro hmem
      rcases List.mem_append.1 hmem with h2 | h2
      · rcases List.mem_append.1 h2 with h3 | h3
        · exact not_mem_listenerEventsFor _ _ _ (fun K l he => by cases he) h3
        · by_cases hoc : (effectiveOptions defaultDispatchOptions oa).onChanged
          · simp [hoc] at h3
          · simp [hoc] at h3
      · by_cases haf : s.afterDispatchOn
        · simp [haf] at h2
        · simp [haf] at h2
    · intro hoc
      rw [executeListeners_none_found _ _ _ _ hm1]
      refine List.mem_append.2 (Or.inl (List.mem_append.2 (Or.inr ?_)))
      simp [hoc]
    · intro haf
      rw [executeListeners_none_found _ _ _ _ hm1]
      refine List.mem_append.2 (Or.inr ?_)
      simp [haf]
    · intro s2 hs2
      subst hs2
      rw [executeListeners_fst_none]
      have hm2 : mapGet (mapDelete (mapSet s.dispatchBatchOptionsMap
          (s.dispatchBatch + 1) (effectiveOptions defaultDispatchOptions oa))
          (s.dispatchBatch + 1)) (s.dispatchBatch + 1) = Option.none := by
        rw [mapGet_mapDelete]
        simp
      refine ⟨?_, ?_, ?_, ?_⟩
      · rw [executeListeners_none_missing _ _ _ hm2]
        refine List.mem_append.2 (Or.inl (List.mem_append.2 (Or.inr ?_)))
        simp
      · intro K l
        exact mem_listenerCalled_executeListeners _ _ _ _ K l
      · intro st
        rw [executeListeners_none_missing _ _ _ hm2]
        intro hmem
        rcases List.mem_append.1 hmem with h2 | h2
        · rcases List.mem_append.1 h2 with h3 | h3
          · exact not_mem_listenerEventsFor _ _ _ (fun K l he => by cases he) h3
          · simp at h3
        · by_cases haf : s.afterDispatchOn
          · simp [haf] at h2
          · simp [haf] at h2
      · intro haf
        rw [executeListeners_none_missing _ _ _ hm2]
        refine List.mem_append.2 (Or.inr ?_)
        simp [haf]

def c6store : Store :=
  { subscribe (mkStore [("A", .num 0)] (fun _ => Option.none)) 3 "A" with
      takeOverDispatch := true
      afterDispatchOn := true }

theorem C6_witness :
    c6store.takeOverDispatch = true ∧
    c6store.beforeDispatch = Option.none ∧
    (⟨false, true⟩ : DispatchOptions)
      = effectiveOptions defaultDispatchOptions .cb ∧
    [("A", JsVal.num 1)] = (computeChanged c6store.actions c6store.state
      (DispatchOptions.mk false true).check [("A", JsVal.num 1)]
      (dedupKeys ([("A", JsVal.num 1)].map Prod.fst))).1 ∧
    mapGet (dispatch c6store [("A", JsVal.num 1)]
        .cb).1.dispatchBatchOptionsMap 1 = some ⟨false, true⟩ ∧
    (∀ K l, Event.listenerCalled K l ∉
      (dispatch c6store [("A", JsVal.num 1)] .cb).2) ∧
    mapGet (executeListeners (dispatch c6store [("A", JsVal.num 1)] .cb).1 1
        [("A", JsVal.num 1)] Option.none).1.dispatchBatchOptionsMap 1
      = Option.none ∧
    Event.warnNoOptions 1 ∈
      (executeListeners (executeListeners (dispatch c6store [("A", JsVal.num 1)]
        .cb).1 1 [("A", JsVal.num 1)] Option.none).1 1 [("A", JsVal.num 1)]
        Option.none).2 ∧
    Event.afterDispatchCalled [("A", JsVal.num 1)] ∈
      (executeListeners (executeListeners (dispatch c6store [("A", JsVal.num 1)]
        .cb).1 1 [("A", JsVal.num 1)] Option.none).1 1 [("A", JsVal.num 1)]
        Option.none).2 :=
  ⟨rfl, rfl, by decide, by decide,
   (C6_handoff_correlation c6store [("A", JsVal.num 1)] .cb ⟨false, true⟩ 1
     [("A", JsVal.num 1)] rfl rfl (by decide) rfl (by decide)).2.2.2.2.2.1,
   (C6_handoff_correlation c6store [("A", JsVal.num 1)] .cb ⟨false, true⟩ 1
     [("A", JsVal.num 1)] rfl rfl (by decide) rfl (by decide)).2.1,
   ((C6_handoff_correlation c6store [("A", JsVal.num 1)] .cb ⟨false, true⟩ 1
     [("A", JsVal.num 1)] rfl rfl (by decide) rfl (by decide)).2.2.2.2.2.2
     (dispatch c6store [("A", JsVal.num 1)] .cb).1 rfl).1,
   (((C6_handoff_correlation c6store [("A", JsVal.num 1)] .cb ⟨false, true⟩ 1
     [("A", JsVal.num 1)] rfl rfl (by decide) rfl (by decide)).2.2.2.2.2.2
     (dispatch c6store [("A", JsVal.num 1)] .cb).1 rfl).2.2.2.2.2
     (executeListeners (dispatch c6store [("A", JsVal.num 1)] .cb).1 1
       [("A", JsVal.num 1)] Option.none).1 rfl).1,
   (((C6_handoff_correlation c6store [("A", JsVal.num 1)] .cb ⟨false, true⟩ 1
     [("A", JsVal.num 1)] rfl rfl (by decide) rfl (by decide)).2.2.2.2.2.2
     (dispatch c6store [("A", JsVal.num 1)] .cb).1 rfl).2.2.2.2.2
     (executeListeners (dispatch c6store [("A", JsVal.num 1)] .cb).1 1
       [("A", JsVal.num 1)] Option.none).1 rfl).2.2.2 rfl⟩

end TaomuStore
